import Mathlib

/-!
Verification of the CMAC engine of the efm32-mbedtls repository
(src/sl_crypto/include/cmac_alt.h).  The header declares the interface:
the context structure, the error codes and the lifecycle functions
mbedtls_cmac_init / setkey / generate_tag / verify_tag / free.  The
companion implementation file is not part of the repository snapshot, so
the behaviour of the operations is modelled from the specification
(spec.md sections 3, 4 and 7); the context layout and the error-code
construction come from the header itself.

Bytes are modelled as natural numbers below 256, buffers as lists of
bytes, and 128-bit blocks as natural numbers below 2^128 read big-endian
from 16 bytes, as in SP 800-38B.
-/

/-- Big-endian value of a byte string: the 16-byte block interpretation
used by CMAC. -/
def beBytesToNat (bs : List Nat) : Nat :=
  bs.foldl (fun acc b => acc * 256 + b) 0

/-- Modelled from the spec (section 4.3): CMAC padding of a final short
block, a single 0x80 byte then zero bytes up to 16 bytes. -/
def padBlock (bs : List Nat) : List Nat :=
  bs ++ 0x80 :: List.replicate (15 - bs.length) 0

/-- Fuel-driven splitting of a byte string into 16-byte chunks; the last
chunk may be shorter.  The fuel argument makes the recursion structural. -/
def chunk16Go : Nat → List Nat → List (List Nat)
  | 0, _ => []
  | _ + 1, [] => []
  | fuel + 1, a :: l => (a :: l).take 16 :: chunk16Go fuel ((a :: l).drop 16)

/-- Split a byte string into 16-byte chunks (empty list for the empty
string; the last chunk may be shorter than 16 bytes). -/
def chunk16 (l : List Nat) : List (List Nat) :=
  chunk16Go l.length l

/-- Modelled from the spec (section 4.3 step 1): the block sequence of a
message, at least one block even for the empty message. -/
def specBlocks (m : List Nat) : List (List Nat) :=
  if m = [] then [[]] else chunk16 m

/-- Modelled from the spec (section 4.1): GF(2^128) doubling with
reduction constant 0x87.  The input is reduced to 128 bits (cipher
outputs are 16-byte blocks); a left shift of a 128-bit register wraps,
which on naturals is 2 * L - 2^128 when the top bit of L is set. -/
def gfDouble (L : Nat) : Nat :=
  let L128 := L % 2 ^ 128
  if L128 < 2 ^ 127 then 2 * L128 else Nat.xor (2 * L128 - 2 ^ 128) 0x87

/-- One CBC chaining step of the CMAC loop: state = encrypt(state XOR block). -/
def cbcStep (E : Nat → Nat) (s : Nat) (b : List Nat) : Nat :=
  E (Nat.xor s (beBytesToNat b))

/-- Value combined into the final block: the unpadded block XOR K1 when the
block is complete (16 bytes), the padded block XOR K2 otherwise. -/
def lastBlockVal (K1 K2 : Nat) (b : List Nat) : Nat :=
  if b.length = 16 then Nat.xor (beBytesToNat b) K1
  else Nat.xor (beBytesToNat (padBlock b)) K2

/-- Modelled from the spec (section 4.3 steps 2 and 3): the CMAC block
loop over the block sequence, carrying the chaining state. -/
def cmacProcess (E : Nat → Nat) (K1 K2 : Nat) : Nat → List (List Nat) → Nat
  | st, [] => st
  | st, [b] => E (Nat.xor st (lastBlockVal K1 K2 b))
  | st, b :: bs => cmacProcess E K1 K2 (cbcStep E st b) bs

/-- Modelled from the spec (section 4.3 step 4): left truncation of the
full 128-bit tag, keeping the most-significant tagLen bits. -/
def truncTag (full tagLen : Nat) : Nat :=
  full / 2 ^ (128 - tagLen)

/-- Modelled from the spec (sections 1 and 6): the external block-cipher
capability consumed by the core, an encrypt-only primitive on 16-byte
blocks under a byte-string key, together with the key sizes the cipher
family accepts.  The engine itself (aesdrv.h) is outside the snapshot. -/
structure BlockCipher where
  encrypt : List Nat → Nat → Nat
  acceptsKeybits : Nat → Bool

/-- Modelled from the spec (section 3): AESDRV_Context_t is declared in
aesdrv.h, which is not in the repository snapshot; per the spec the
driver context carries the device configuration and the two derived
128-bit subkeys. -/
structure AESDRV_Context_t where
  devno : Nat
  lock_wait_ticks : Int
  subkey1 : Nat
  subkey2 : Nat
deriving Repr, DecidableEq

/-- CMAC context structure, from cmac_alt.h lines 66-72: the AESDRV
context, the key size in bits, and a uint32_t key[8] array holding a full
copy of the raw AES key (128 or 256 bits); the array is modelled as its
32 raw bytes. -/
structure mbedtls_cmac_context where
  aesdrv_ctx : AESDRV_Context_t
  keybits : Nat
  key : List Nat
deriving Repr, DecidableEq

/-- Modelled from the spec (section 6): MBEDTLS_ERR_CMAC_BASE is defined
in sl_crypto.h, outside the snapshot; it is the module-specific error
code base with clear low-order bits, modelled as the magnitude 0x70C0.
Return codes are modelled by their magnitude, 0 meaning success. -/
def MBEDTLS_ERR_CMAC_BASE : Nat := 0x70C0

/-- Bad-input error code, cmac_alt.h line 56: MBEDTLS_ERR_CMAC_BASE | 0x01. -/
def MBEDTLS_ERR_CMAC_BAD_INPUT : Nat := Nat.lor MBEDTLS_ERR_CMAC_BASE 0x01

/-- Authentication-failed error code, cmac_alt.h line 57:
MBEDTLS_ERR_CMAC_BASE | 0x02. -/
def MBEDTLS_ERR_CMAC_AUTH_FAILED : Nat := Nat.lor MBEDTLS_ERR_CMAC_BASE 0x02

/-- Modelled from the spec (section 4.5): init zero-initializes the
context and acquires no hardware resource. -/
def mbedtls_cmac_init : mbedtls_cmac_context :=
  { aesdrv_ctx := { devno := 0, lock_wait_ticks := 0, subkey1 := 0, subkey2 := 0 },
    keybits := 0,
    key := List.replicate 32 0 }

/-- The 32 bytes stored in the uint32_t key[8] array after setkey: the
first keybits/8 key bytes, zero-padded to 32 bytes. -/
def storedKey (key : List Nat) (keybits : Nat) : List Nat :=
  (key ++ List.replicate 32 0).take (keybits / 8) ++ List.replicate (32 - keybits / 8) 0

/-- The key bytes a context presents to the cipher engine: the first
keybits/8 bytes of the stored key copy. -/
def ctxKeyBytes (ctx : mbedtls_cmac_context) : List Nat :=
  ctx.key.take (ctx.keybits / 8)

/-- Modelled from the spec (sections 4.1 and 4.2): setkey validates the
key size (128 or 256 bits for this AES-based module, and accepted by the
cipher family), stores a copy of the raw key, derives
L = encrypt(key, ZERO_BLOCK), K1 = double(L), K2 = double(K1), and
writes the subkeys into the driver context.  Invalid key sizes fail with
the bad-input error and leave the context unchanged. -/
def mbedtls_cmac_setkey (C : BlockCipher) (ctx : mbedtls_cmac_context)
    (key : List Nat) (keybits : Nat) : Nat × mbedtls_cmac_context :=
  if (keybits = 128 ∨ keybits = 256) ∧ C.acceptsKeybits keybits = true then
    let kstore := storedKey key keybits
    let L := C.encrypt (kstore.take (keybits / 8)) 0
    let K1 := gfDouble L
    let K2 := gfDouble K1
    (0, { aesdrv_ctx := { ctx.aesdrv_ctx with subkey1 := K1, subkey2 := K2 },
          keybits := keybits, key := kstore })
  else (MBEDTLS_ERR_CMAC_BAD_INPUT, ctx)

/-- Modelled from the spec (section 4.5): free releases the cipher-engine
binding, zeroes the subkeys and the retained key copy, and resets the
context to the pre-init logical state (the zeroed context). -/
def mbedtls_cmac_free (_ctx : mbedtls_cmac_context) : mbedtls_cmac_context :=
  { aesdrv_ctx := { devno := 0, lock_wait_ticks := 0, subkey1 := 0, subkey2 := 0 },
    keybits := 0,
    key := List.replicate 32 0 }

/-- The full 128-bit CMAC of a message under a context: the block loop
run from the zero state over the block sequence of the message, using
the context subkeys and the cipher keyed with the stored key copy. -/
def cmacCtxFullTag (C : BlockCipher) (ctx : mbedtls_cmac_context) (msg : List Nat) : Nat :=
  cmacProcess (C.encrypt (ctxKeyBytes ctx)) ctx.aesdrv_ctx.subkey1 ctx.aesdrv_ctx.subkey2
    0 (specBlocks msg)

/-- Modelled from the spec (section 4.3): generate_tag validates that
data_len (in bits) is a multiple of 8 and tag_len (in bits) is below
128, failing with the bad-input error and writing no tag bytes
otherwise; on valid input it computes the CMAC of the first data_len/8
bytes of the buffer and writes the most-significant tag_len bits.  The
result is the return code, the context after the call, and the written
tag value (none when nothing is written). -/
def mbedtls_cmac_generate_tag (C : BlockCipher) (ctx : mbedtls_cmac_context)
    (data : List Nat) (data_len tag_len : Nat) :
    Nat × mbedtls_cmac_context × Option Nat :=
  if data_len % 8 ≠ 0 ∨ 128 ≤ tag_len then
    (MBEDTLS_ERR_CMAC_BAD_INPUT, ctx, none)
  else
    (0, ctx, some (truncTag (cmacCtxFullTag C ctx (data.take (data_len / 8))) tag_len))

/-- Modelled from the spec (section 4.4): verify_tag recomputes the tag
exactly as generate_tag (with the same input-length preconditions) and
compares it with the supplied tag over tag_len bits, returning 0 on
exact match and MBEDTLS_ERR_CMAC_AUTH_FAILED on mismatch. -/
def mbedtls_cmac_verify_tag (C : BlockCipher) (ctx : mbedtls_cmac_context)
    (data : List Nat) (data_len : Nat) (tag : Nat) (tag_len : Nat) :
    Nat × mbedtls_cmac_context :=
  let r := mbedtls_cmac_generate_tag C ctx data data_len tag_len
  match r.2.2 with
  | none => (r.1, r.2.1)
  | some computed =>
      if computed = tag then (0, r.2.1) else (MBEDTLS_ERR_CMAC_AUTH_FAILED, r.2.1)

/-- A reference statement of the CMAC computation, following the words of
the specification: split the message into 16-byte blocks (at least one
block, even for the empty message); chain all blocks but the last from
the zero state as state = encrypt(state XOR block); for the last block,
XOR in K1 when the message is a nonzero multiple of 16 bytes and the
0x80-padded block XOR K2 otherwise, and encrypt once more. -/
def cmacSpecTag (E : Nat → Nat) (K1 K2 : Nat) (m : List Nat) : Nat :=
  let blks := specBlocks m
  let st := blks.dropLast.foldl (cbcStep E) 0
  let lastBlk := blks.getLastD []
  if m.length ≠ 0 ∧ m.length % 16 = 0 then
    E (Nat.xor st (Nat.xor (beBytesToNat lastBlk) K1))
  else
    E (Nat.xor st (Nat.xor (beBytesToNat (padBlock lastBlk)) K2))

/-- Concrete cipher used to instantiate the abstract capability in
closed statements: a key-independent permutation of the block space. -/
def cipher0 : BlockCipher :=
  { encrypt := fun _ b => (b + 17) % 2 ^ 128,
    acceptsKeybits := fun kb => kb == 128 }

/-- Concrete 16-byte key for closed statements. -/
def key0 : List Nat := List.replicate 16 0x2B

/-- Context obtained by init followed by a successful setkey under cipher0. -/
def ctx0 : mbedtls_cmac_context :=
  (mbedtls_cmac_setkey cipher0 mbedtls_cmac_init key0 128).2

/-- The fuel-driven chunker is independent of the fuel once the fuel covers
the length of the list. -/
theorem chunk16Go_congr : ∀ (f1 f2 : Nat) (l : List Nat),
    l.length ≤ f1 → l.length ≤ f2 → chunk16Go f1 l = chunk16Go f2 l := by
  intro f1
  induction f1 with
  | zero =>
      intro f2 l h1 _
      have hl : l = [] := List.eq_nil_of_length_eq_zero (Nat.le_zero.mp h1)
      subst hl
      cases f2 <;> rfl
  | succ f ih =>
      intro f2 l h1 h2
      cases l with
      | nil => cases f2 <;> rfl
      | cons a t =>
          cases f2 with
          | zero => simp at h2
          | succ g =>
              simp only [chunk16Go]
              have hd1 : ((a :: t).drop 16).length ≤ f := by
                simp only [List.length_drop, List.length_cons]
                simp only [List.length_cons] at h1
                omega
              have hd2 : ((a :: t).drop 16).length ≤ g := by
                simp only [List.length_drop, List.length_cons]
                simp only [List.length_cons] at h2
                omega
              rw [ih g _ hd1 hd2]

/-- Unfolding equation of chunk16 on a nonempty list. -/
theorem chunk16_cons (a : Nat) (t : List Nat) :
    chunk16 (a :: t) = (a :: t).take 16 :: chunk16 ((a :: t).drop 16) := by
  show chunk16Go (a :: t).length (a :: t) = _
  simp only [List.length_cons, chunk16Go]
  rw [chunk16Go_congr t.length ((a :: t).drop 16).length ((a :: t).drop 16)
    (by simp only [List.length_drop, List.length_cons]; omega) le_rfl]
  rfl

/-- A nonempty string of at most 16 bytes is a single chunk. -/
theorem chunk16_eq_single (l : List Nat) (hne : l ≠ []) (hle : l.length ≤ 16) :
    chunk16 l = [l] := by
  cases l with
  | nil => exact absurd rfl hne
  | cons a t =>
      rw [chunk16_cons, List.take_of_length_le hle, List.drop_eq_nil_of_le hle]
      rfl

/-- Chunking a nonempty string yields at least one chunk. -/
theorem chunk16_ne_nil (l : List Nat) (hne : l ≠ []) : chunk16 l ≠ [] := by
  cases l with
  | nil => exact absurd rfl hne
  | cons a t => rw [chunk16_cons]; exact List.cons_ne_nil _ _

/-- getLastD of a nonempty list does not depend on the default. -/
theorem getLastD_irrel {α : Type} (l : List α) (hne : l ≠ []) (d1 d2 : α) :
    l.getLastD d1 = l.getLastD d2 := by
  rw [List.getLastD_eq_getLast?, List.getLastD_eq_getLast?]
  cases h : l.getLast? with
  | none => exact absurd (List.getLast?_eq_none_iff.mp h) hne
  | some a => rfl

/-- The last chunk of a nonempty string has 16 bytes exactly when the
string length is a multiple of 16. -/
theorem chunk16_last_length : ∀ (n : Nat) (m : List Nat), m.length ≤ n → m ≠ [] →
    ((((chunk16 m).getLastD []).length = 16) ↔ m.length % 16 = 0) := by
  intro n
  induction n with
  | zero =>
      intro m hm hne
      have : m = [] := List.eq_nil_of_length_eq_zero (Nat.le_zero.mp hm)
      exact absurd this hne
  | succ n ih =>
      intro m hm hne
      by_cases h16 : m.length ≤ 16
      · rw [chunk16_eq_single m hne h16]
        have hpos : 0 < m.length := List.length_pos.mpr hne
        simp only [List.getLastD_cons, List.getLastD_nil]
        omega
      · push_neg at h16
        cases m with
        | nil => exact absurd rfl hne
        | cons a t =>
            rw [chunk16_cons]
            have hdne : (a :: t).drop 16 ≠ [] := by
              intro hc
              have hlc := congrArg List.length hc
              simp only [List.length_drop, List.length_cons, List.length_nil] at hlc
              simp only [List.length_cons] at h16
              omega
            have hcne : chunk16 ((a :: t).drop 16) ≠ [] := chunk16_ne_nil _ hdne
            rw [List.getLastD_cons, getLastD_irrel _ hcne _ []]
            have hlen : ((a :: t).drop 16).length ≤ n := by
              simp only [List.length_drop, List.length_cons]
              simp only [List.length_cons] at hm
              omega
            rw [ih _ hlen hdne]
            simp only [List.length_drop, List.length_cons]
            simp only [List.length_cons] at h16
            omega

/-- The CMAC block loop over body blocks followed by a final block equals a
CBC fold over the body followed by the final-block step. -/
theorem cmacProcess_append (E : Nat → Nat) (K1 K2 : Nat) (b : List Nat) :
    ∀ (blks : List (List Nat)) (st : Nat),
      cmacProcess E K1 K2 st (blks ++ [b]) =
        E (Nat.xor (blks.foldl (cbcStep E) st) (lastBlockVal K1 K2 b)) := by
  intro blks
  induction blks with
  | nil => intro st; rfl
  | cons c cs ih =>
      intro st
      cases hcs : cs ++ [b] with
      | nil => exact absurd hcs (by simp)
      | cons y rest =>
          have h1 : (c :: cs) ++ [b] = c :: y :: rest := by rw [List.cons_append, hcs]
          rw [h1]
          show cmacProcess E K1 K2 (cbcStep E st c) (y :: rest) = _
          rw [← hcs, ih]
          rfl

/-- Every message has at least one block. -/
theorem specBlocks_ne_nil (m : List Nat) : specBlocks m ≠ [] := by
  unfold specBlocks
  split
  · exact List.cons_ne_nil _ _
  · exact chunk16_ne_nil m (by assumption)

/-- The CMAC block loop over any nonempty block list splits into the CBC
fold over all blocks but the last, then the final-block step. -/
theorem cmacProcess_eq_dropLast (E : Nat → Nat) (K1 K2 : Nat) (l : List (List Nat))
    (hne : l ≠ []) (st : Nat) :
    cmacProcess E K1 K2 st l =
      E (Nat.xor (l.dropLast.foldl (cbcStep E) st) (lastBlockVal K1 K2 (l.getLastD []))) := by
  have hlast : l.getLastD [] = l.getLast hne := by
    rw [List.getLastD_eq_getLast?, List.getLast?_eq_getLast l hne]
    rfl
  rw [hlast]
  conv_lhs => rw [← List.dropLast_append_getLast hne]
  rw [cmacProcess_append]

/-- The final-block selection of the loop agrees with the padding rule of
the specification: K1 on a nonzero multiple of 16 bytes, padded K2
otherwise. -/
theorem lastBlockVal_spec (K1 K2 : Nat) (m : List Nat) :
    lastBlockVal K1 K2 ((specBlocks m).getLastD []) =
      if m.length ≠ 0 ∧ m.length % 16 = 0 then
        Nat.xor (beBytesToNat ((specBlocks m).getLastD [])) K1
      else Nat.xor (beBytesToNat (padBlock ((specBlocks m).getLastD []))) K2 := by
  unfold lastBlockVal
  by_cases hm : m = []
  · subst hm
    simp [specBlocks, List.getLastD]
  · have h1 := chunk16_last_length m.length m le_rfl hm
    have h2 : specBlocks m = chunk16 m := by simp [specBlocks, hm]
    rw [h2]
    have hlp : m.length ≠ 0 := by
      intro hc
      exact hm (List.eq_nil_of_length_eq_zero hc)
    by_cases hmod : m.length % 16 = 0
    · rw [if_pos (h1.mpr hmod), if_pos ⟨hlp, hmod⟩]
    · rw [if_neg (fun hc => hmod (h1.mp hc)), if_neg (fun hc => hmod hc.2)]

/-- Equivalence of the block loop with the reference CMAC statement taken
from the words of the specification. -/
theorem cmacProcess_eq_cmacSpecTag (E : Nat → Nat) (K1 K2 : Nat) (m : List Nat) :
    cmacProcess E K1 K2 0 (specBlocks m) = cmacSpecTag E K1 K2 m := by
  rw [cmacProcess_eq_dropLast E K1 K2 _ (specBlocks_ne_nil m) 0]
  unfold cmacSpecTag
  rw [lastBlockVal_spec]
  rw [apply_ite (fun v => E (Nat.xor ((specBlocks m).dropLast.foldl (cbcStep E) 0) v))]

/-- generate_tag never modifies the context. -/
theorem generate_tag_ctx_unchanged (C : BlockCipher) (ctx : mbedtls_cmac_context)
    (data : List Nat) (data_len tag_len : Nat) :
    (mbedtls_cmac_generate_tag C ctx data data_len tag_len).2.1 = ctx := by
  unfold mbedtls_cmac_generate_tag
  split <;> rfl

/-- verify_tag never modifies the context. -/
theorem verify_tag_ctx_unchanged (C : BlockCipher) (ctx : mbedtls_cmac_context)
    (data : List Nat) (data_len tag tag_len : Nat) :
    (mbedtls_cmac_verify_tag C ctx data data_len tag tag_len).2 = ctx := by
  have hg := generate_tag_ctx_unchanged C ctx data data_len tag_len
  rcases hr : mbedtls_cmac_generate_tag C ctx data data_len tag_len with ⟨code, ctx2, ot⟩
  rw [hr] at hg
  simp only at hg
  unfold mbedtls_cmac_verify_tag
  rw [hr]
  cases ot with
  | none => simpa using hg
  | some c =>
      by_cases hc : c = tag <;> simp [hc] <;> exact hg

/-- C1: for every context (in particular every key-ready one) and every
whole-byte message, mbedtls_cmac_generate_tag succeeds and returns exactly
the standard CMAC described by the spec: 16-byte blocks (at least one,
even for the empty message), 0x80 padding and K2 for an empty or partial
final block, K1 for a complete final block, CBC chaining
state = encrypt(state XOR block) from the zero block, and left truncation
of the final state to the most-significant tag_len bits. -/
theorem C1_generate_tag_computes_standard_cmac (C : BlockCipher)
    (ctx : mbedtls_cmac_context) (data : List Nat) (data_len tag_len : Nat)
    (h8 : data_len % 8 = 0) (ht : tag_len < 128) :
    mbedtls_cmac_generate_tag C ctx data data_len tag_len =
      (0, ctx, some (truncTag
        (cmacSpecTag (C.encrypt (ctxKeyBytes ctx))
          ctx.aesdrv_ctx.subkey1 ctx.aesdrv_ctx.subkey2
          (data.take (data_len / 8))) tag_len)) := by
  unfold mbedtls_cmac_generate_tag
  rw [if_neg (by omega)]
  unfold cmacCtxFullTag
  rw [cmacProcess_eq_cmacSpecTag]

/-- C2: for every key accepted by the cipher, mbedtls_cmac_setkey derives
L = encrypt(key, zero block), K1 = double(L) and K2 = double(K1), where
doubling of a 128-bit value is a left shift when the most-significant bit
is clear and the wrapped shift XOR 0x87 otherwise; the derivation depends
only on the key, so setkey followed by free and a fresh setkey with the
same key yields identical subkeys. -/
theorem C2_setkey_subkey_derivation_deterministic (C : BlockCipher) (ctx : mbedtls_cmac_context)
    (key : List Nat) (keybits : Nat)
    (hkb : keybits = 128 ∨ keybits = 256) (hacc : C.acceptsKeybits keybits = true) :
    (mbedtls_cmac_setkey C ctx key keybits).1 = 0 ∧
    (mbedtls_cmac_setkey C ctx key keybits).2.aesdrv_ctx.subkey1 =
      gfDouble (C.encrypt ((storedKey key keybits).take (keybits / 8)) 0) ∧
    (mbedtls_cmac_setkey C ctx key keybits).2.aesdrv_ctx.subkey2 =
      gfDouble ((mbedtls_cmac_setkey C ctx key keybits).2.aesdrv_ctx.subkey1) ∧
    (∀ L, L < 2 ^ 128 →
      (L < 2 ^ 127 → gfDouble L = 2 * L) ∧
      (2 ^ 127 ≤ L → gfDouble L = Nat.xor (2 * L - 2 ^ 128) 0x87)) ∧
    (mbedtls_cmac_setkey C
        (mbedtls_cmac_free (mbedtls_cmac_setkey C ctx key keybits).2)
        key keybits).2.aesdrv_ctx.subkey1 =
      (mbedtls_cmac_setkey C ctx key keybits).2.aesdrv_ctx.subkey1 ∧
    (mbedtls_cmac_setkey C
        (mbedtls_cmac_free (mbedtls_cmac_setkey C ctx key keybits).2)
        key keybits).2.aesdrv_ctx.subkey2 =
      (mbedtls_cmac_setkey C ctx key keybits).2.aesdrv_ctx.subkey2 := by
  have hcond : (keybits = 128 ∨ keybits = 256) ∧ C.acceptsKeybits keybits = true :=
    ⟨hkb, hacc⟩
  refine ⟨?_, ?_, ?_, ?_, ?_, ?_⟩
  · simp only [mbedtls_cmac_setkey, if_pos hcond]
  · simp only [mbedtls_cmac_setkey, if_pos hcond]
  · simp only [mbedtls_cmac_setkey, if_pos hcond]
  · intro L hL
    constructor
    · intro hlt
      simp only [gfDouble, Nat.mod_eq_of_lt hL]
      rw [if_pos hlt]
    · intro hge
      simp only [gfDouble, Nat.mod_eq_of_lt hL]
      rw [if_neg (by omega)]
  · simp only [mbedtls_cmac_setkey, if_pos hcond]
  · simp only [mbedtls_cmac_setkey, if_pos hcond]

/-- C3: on valid inputs mbedtls_cmac_verify_tag returns 0 exactly when the
supplied tag matches the recomputed tag over tag_len bits, and returns
the dedicated MBEDTLS_ERR_CMAC_AUTH_FAILED code (distinct from the
bad-input code and from success, never a crash: the function is total) on
any mismatch. -/
theorem C3_verify_tag_auth_failed_semantics (C : BlockCipher) (ctx : mbedtls_cmac_context)
    (data : List Nat) (data_len tag tag_len : Nat)
    (h8 : data_len % 8 = 0) (ht : tag_len < 128) :
    ((mbedtls_cmac_verify_tag C ctx data data_len tag tag_len).1 = 0 ↔
      tag = truncTag (cmacCtxFullTag C ctx (data.take (data_len / 8))) tag_len) ∧
    (tag ≠ truncTag (cmacCtxFullTag C ctx (data.take (data_len / 8))) tag_len →
      (mbedtls_cmac_verify_tag C ctx data data_len tag tag_len).1 =
        MBEDTLS_ERR_CMAC_AUTH_FAILED) ∧
    MBEDTLS_ERR_CMAC_AUTH_FAILED ≠ MBEDTLS_ERR_CMAC_BAD_INPUT ∧
    MBEDTLS_ERR_CMAC_AUTH_FAILED ≠ 0 := by
  have hv : mbedtls_cmac_verify_tag C ctx data data_len tag tag_len =
      (if truncTag (cmacCtxFullTag C ctx (data.take (data_len / 8))) tag_len = tag
        then (0, ctx) else (MBEDTLS_ERR_CMAC_AUTH_FAILED, ctx)) := by
    unfold mbedtls_cmac_verify_tag mbedtls_cmac_generate_tag
    rw [if_neg (by omega)]
  by_cases hc : truncTag (cmacCtxFullTag C ctx (data.take (data_len / 8))) tag_len = tag
  · rw [hv, if_pos hc]
    refine ⟨by simp [hc.symm], fun hn => absurd hc.symm hn, by decide, by decide⟩
  · rw [hv, if_neg hc]
    refine ⟨?_, fun _ => by simp, by decide, by decide⟩
    simp only [iff_iff_implies_and_implies]
    constructor
    · intro h0
      exact absurd h0 (by decide)
    · intro he
      exact absurd he.symm hc

/-- C4: for every context and valid whole-byte message, the tag produced
by mbedtls_cmac_generate_tag is accepted by mbedtls_cmac_verify_tag on
the same context, message and tag length. -/
theorem C4_generate_then_verify_roundtrip (C : BlockCipher) (ctx : mbedtls_cmac_context)
    (data : List Nat) (data_len tag_len : Nat)
    (h8 : data_len % 8 = 0) (ht : tag_len < 128) :
    ∀ t : Nat, (mbedtls_cmac_generate_tag C ctx data data_len tag_len).2.2 = some t →
      (mbedtls_cmac_verify_tag C ctx data data_len t tag_len).1 = 0 := by
  intro t hgen
  unfold mbedtls_cmac_generate_tag at hgen
  rw [if_neg (by omega)] at hgen
  simp only [Option.some.injEq] at hgen
  unfold mbedtls_cmac_verify_tag mbedtls_cmac_generate_tag
  rw [if_neg (by omega)]
  simp [hgen]

/-- C5: a data length in bits that is not a multiple of 8, or a tag length
of 128 bits or more, makes mbedtls_cmac_generate_tag return the bad-input
code with no tag bytes written and the context untouched, and makes
mbedtls_cmac_verify_tag fail the same way. -/
theorem C5_bad_input_rejected (C : BlockCipher) (ctx : mbedtls_cmac_context)
    (data : List Nat) (data_len tag tag_len : Nat)
    (h : data_len % 8 ≠ 0 ∨ 128 ≤ tag_len) :
    mbedtls_cmac_generate_tag C ctx data data_len tag_len =
      (MBEDTLS_ERR_CMAC_BAD_INPUT, ctx, none) ∧
    mbedtls_cmac_verify_tag C ctx data data_len tag tag_len =
      (MBEDTLS_ERR_CMAC_BAD_INPUT, ctx) := by
  unfold mbedtls_cmac_verify_tag mbedtls_cmac_generate_tag
  rw [if_pos h]
  exact ⟨rfl, by simp⟩

/-- C6: the tag produced at length t is the most-significant t bits of the
full 128-bit tag of the same context and message; consequently the tag at
length t is also the top t bits of any longer truncated tag. -/
theorem C6_truncation_consistency (C : BlockCipher) (ctx : mbedtls_cmac_context)
    (data : List Nat) (data_len t tp : Nat)
    (h8 : data_len % 8 = 0) (ht : t < 128) (htt : t ≤ tp) (htp : tp < 128) :
    (mbedtls_cmac_generate_tag C ctx data data_len t).2.2 =
      some (cmacCtxFullTag C ctx (data.take (data_len / 8)) / 2 ^ (128 - t)) ∧
    truncTag (cmacCtxFullTag C ctx (data.take (data_len / 8))) t =
      truncTag (cmacCtxFullTag C ctx (data.take (data_len / 8))) tp / 2 ^ (tp - t) := by
  constructor
  · unfold mbedtls_cmac_generate_tag
    rw [if_neg (by omega)]
    rfl
  · unfold truncTag
    rw [Nat.div_div_eq_div_mul, ← pow_add]
    congr 2
    omega

/-- On valid input lengths, verify_tag reduces to a comparison of the
recomputed truncated tag with the supplied tag. -/
theorem verify_tag_eq_of_valid (C : BlockCipher) (ctx : mbedtls_cmac_context)
    (data : List Nat) (data_len tag tag_len : Nat)
    (h8 : data_len % 8 = 0) (ht : tag_len < 128) :
    mbedtls_cmac_verify_tag C ctx data data_len tag tag_len =
      if truncTag (cmacCtxFullTag C ctx (data.take (data_len / 8))) tag_len = tag
        then (0, ctx) else (MBEDTLS_ERR_CMAC_AUTH_FAILED, ctx) := by
  unfold mbedtls_cmac_verify_tag mbedtls_cmac_generate_tag
  rw [if_neg (by omega)]

/-- Flipping one bit of a value changes it. -/
theorem xor_two_pow_ne (c j : Nat) : c ≠ Nat.xor c (2 ^ j) := by
  have h : c ≠ c ^^^ 2 ^ j := by
    intro he
    have h2 := congrArg (fun z => c ^^^ z) he.symm
    simp only [Nat.xor_cancel_left, Nat.xor_self] at h2
    exact absurd h2 (by positivity)
  exact h

/-- C8 (amended): flipping any single bit within the compared tag_len bits
of the tag makes mbedtls_cmac_verify_tag return the authentication-failed
code; changing the message makes it return the authentication-failed code
exactly when the change alters the most-significant tag_len bits of the
recomputed tag (a message change that leaves those bits unchanged is
accepted, see the counterexample). -/
theorem C8_bit_flip_sensitivity_amended (C : BlockCipher) (ctx : mbedtls_cmac_context)
    (data dataq : List Nat) (data_len tag_len j : Nat)
    (h8 : data_len % 8 = 0) (ht : tag_len < 128) (hj : j < tag_len) :
    (mbedtls_cmac_verify_tag C ctx data data_len
      (Nat.xor (truncTag (cmacCtxFullTag C ctx (data.take (data_len / 8))) tag_len) (2 ^ j))
      tag_len).1 = MBEDTLS_ERR_CMAC_AUTH_FAILED ∧
    (truncTag (cmacCtxFullTag C ctx (dataq.take (data_len / 8))) tag_len ≠
        truncTag (cmacCtxFullTag C ctx (data.take (data_len / 8))) tag_len →
      (mbedtls_cmac_verify_tag C ctx dataq data_len
        (truncTag (cmacCtxFullTag C ctx (data.take (data_len / 8))) tag_len) tag_len).1 =
        MBEDTLS_ERR_CMAC_AUTH_FAILED) := by
  constructor
  · rw [verify_tag_eq_of_valid C ctx data data_len _ tag_len h8 ht]
    rw [if_neg (xor_two_pow_ne _ j)]
  · intro hdiff
    rw [verify_tag_eq_of_valid C ctx dataq data_len _ tag_len h8 ht]
    rw [if_neg hdiff]

/-- C9: mbedtls_cmac_free zeroes the subkeys and the retained key copy,
resets the context to the pre-init (zeroed) state, and is idempotent; it
is a total function, so calling it twice, or on a context that was
initialized but never given a key, cannot fault. -/
theorem C9_free_idempotent_zeroing (ctx : mbedtls_cmac_context) :
    mbedtls_cmac_free (mbedtls_cmac_free ctx) = mbedtls_cmac_free ctx ∧
    mbedtls_cmac_free ctx = mbedtls_cmac_init ∧
    (mbedtls_cmac_free ctx).aesdrv_ctx.subkey1 = 0 ∧
    (mbedtls_cmac_free ctx).aesdrv_ctx.subkey2 = 0 ∧
    (mbedtls_cmac_free ctx).key = List.replicate 32 0 ∧
    (mbedtls_cmac_free ctx).keybits = 0 ∧
    mbedtls_cmac_free mbedtls_cmac_init = mbedtls_cmac_init :=
  ⟨rfl, rfl, rfl, rfl, rfl, rfl, rfl⟩

/-- C10: after a successful setkey the context holds a full 32-byte
(256-bit, mirroring uint32_t key[8]) copy of the raw cipher key together
with the keybits field, not merely a cipher handle; generate_tag and
verify_tag leave the whole context, in particular the key copy and
keybits, unchanged; free zeroes the copy. -/
theorem C10_context_retains_key_copy (C : BlockCipher) (ctx : mbedtls_cmac_context)
    (key : List Nat) (keybits : Nat) (data : List Nat) (data_len tag tag_len : Nat)
    (hkb : keybits = 128 ∨ keybits = 256) (hacc : C.acceptsKeybits keybits = true) :
    (mbedtls_cmac_setkey C ctx key keybits).2.key = storedKey key keybits ∧
    ((mbedtls_cmac_setkey C ctx key keybits).2.key).length = 32 ∧
    (mbedtls_cmac_setkey C ctx key keybits).2.keybits = keybits ∧
    (mbedtls_cmac_generate_tag C (mbedtls_cmac_setkey C ctx key keybits).2
        data data_len tag_len).2.1 = (mbedtls_cmac_setkey C ctx key keybits).2 ∧
    (mbedtls_cmac_verify_tag C (mbedtls_cmac_setkey C ctx key keybits).2
        data data_len tag tag_len).2 = (mbedtls_cmac_setkey C ctx key keybits).2 ∧
    (mbedtls_cmac_free (mbedtls_cmac_setkey C ctx key keybits).2).key =
      List.replicate 32 0 := by
  have hcond : (keybits = 128 ∨ keybits = 256) ∧ C.acceptsKeybits keybits = true :=
    ⟨hkb, hacc⟩
  refine ⟨?_, ?_, ?_, generate_tag_ctx_unchanged _ _ _ _ _,
    verify_tag_ctx_unchanged _ _ _ _ _ _, rfl⟩
  · simp only [mbedtls_cmac_setkey, if_pos hcond]
  · simp only [mbedtls_cmac_setkey, if_pos hcond]
    simp only [storedKey, List.length_append, List.length_take, List.length_replicate]
    rcases hkb with h | h <;> subst h <;> omega
  · simp only [mbedtls_cmac_setkey, if_pos hcond]

/-- C8 counterexample: under the admissible block cipher cipher0 and the
key-ready context ctx0, the 16-byte all-zero message has 8-bit tag 0; the
message obtained by flipping the lowest bit of its last byte is still
accepted by mbedtls_cmac_verify_tag with the same tag (return 0, not the
authentication-failed code), so a single message-bit flip does not always
cause authentication failure. -/
theorem C8_message_bit_flip_counterexample :
    (mbedtls_cmac_setkey cipher0 mbedtls_cmac_init key0 128).1 = 0 ∧
    (mbedtls_cmac_generate_tag cipher0 ctx0 (List.replicate 16 0) 128 8).2.2 = some 0 ∧
    (List.replicate 16 0).set 15 (Nat.xor 0 (2 ^ 0)) = List.replicate 15 0 ++ [1] ∧
    (mbedtls_cmac_verify_tag cipher0 ctx0
      ((List.replicate 16 0).set 15 (Nat.xor 0 (2 ^ 0))) 128 0 8).1 = 0 ∧
    (mbedtls_cmac_verify_tag cipher0 ctx0
      ((List.replicate 16 0).set 15 (Nat.xor 0 (2 ^ 0))) 128 0 8).1 ≠
      MBEDTLS_ERR_CMAC_AUTH_FAILED := by decide

/-- Witness for C1 at a concrete cipher, context, 3-byte message and
16-bit tag length. -/
theorem C1_generate_tag_computes_standard_cmac_witness :
    24 % 8 = 0 ∧ 16 < 128 ∧
    mbedtls_cmac_generate_tag cipher0 ctx0 [1, 2, 3] 24 16 =
      (0, ctx0, some (truncTag
        (cmacSpecTag (cipher0.encrypt (ctxKeyBytes ctx0))
          ctx0.aesdrv_ctx.subkey1 ctx0.aesdrv_ctx.subkey2
          ([1, 2, 3].take (24 / 8))) 16)) :=
  ⟨by decide, by decide,
    C1_generate_tag_computes_standard_cmac cipher0 ctx0 [1, 2, 3] 24 16 (by decide) (by decide)⟩

/-- Witness for C2 at a concrete cipher and 128-bit key. -/
theorem C2_setkey_subkey_derivation_deterministic_witness :
    ((128 : Nat) = 128 ∨ (128 : Nat) = 256) ∧ cipher0.acceptsKeybits 128 = true ∧
    (mbedtls_cmac_setkey cipher0 mbedtls_cmac_init key0 128).2.aesdrv_ctx.subkey1 =
      gfDouble (cipher0.encrypt ((storedKey key0 128).take (128 / 8)) 0) :=
  ⟨Or.inl rfl, by decide,
    (C2_setkey_subkey_derivation_deterministic cipher0 mbedtls_cmac_init key0 128 (Or.inl rfl) (by decide)).2.1⟩

/-- Witness for C3 at a concrete one-byte message and 8-bit tag. -/
theorem C3_verify_tag_auth_failed_semantics_witness :
    8 % 8 = 0 ∧ 8 < 128 ∧
    ((mbedtls_cmac_verify_tag cipher0 ctx0 [5] 8 0 8).1 = 0 ↔
      (0 : Nat) = truncTag (cmacCtxFullTag cipher0 ctx0 ([5].take (8 / 8))) 8) :=
  ⟨by decide, by decide, (C3_verify_tag_auth_failed_semantics cipher0 ctx0 [5] 8 0 8 (by decide) (by decide)).1⟩

/-- Witness for C4: the produced 8-bit tag 5 of message [5] verifies. -/
theorem C4_generate_then_verify_roundtrip_witness :
    8 % 8 = 0 ∧ 8 < 128 ∧ (mbedtls_cmac_verify_tag cipher0 ctx0 [5] 8 5 8).1 = 0 :=
  ⟨by decide, by decide, C4_generate_then_verify_roundtrip cipher0 ctx0 [5] 8 8 (by decide) (by decide) 5 (by decide)⟩

/-- Witness for C5 at a 4-bit (non-byte-aligned) data length. -/
theorem C5_bad_input_rejected_witness :
    ((4 : Nat) % 8 ≠ 0 ∨ 128 ≤ (16 : Nat)) ∧
    mbedtls_cmac_generate_tag cipher0 ctx0 [1] 4 16 =
      (MBEDTLS_ERR_CMAC_BAD_INPUT, ctx0, none) :=
  ⟨Or.inl (by decide),
    (C5_bad_input_rejected cipher0 ctx0 [1] 4 0 16 (Or.inl (by decide))).1⟩

/-- Witness for C6 at tag lengths 8 and 64. -/
theorem C6_truncation_consistency_witness :
    24 % 8 = 0 ∧ 8 < 128 ∧ 8 ≤ 64 ∧ 64 < 128 ∧
    (mbedtls_cmac_generate_tag cipher0 ctx0 [1, 2, 3] 24 8).2.2 =
      some (cmacCtxFullTag cipher0 ctx0 ([1, 2, 3].take (24 / 8)) / 2 ^ (128 - 8)) :=
  ⟨by decide, by decide, by decide, by decide,
    (C6_truncation_consistency cipher0 ctx0 [1, 2, 3] 24 8 64 (by decide) (by decide) (by decide) (by decide)).1⟩

/-- Witness for C8 (amended) flipping tag bit 0 at tag length 8. -/
theorem C8_bit_flip_sensitivity_amended_witness :
    8 % 8 = 0 ∧ 8 < 128 ∧ 0 < 8 ∧
    (mbedtls_cmac_verify_tag cipher0 ctx0 [5] 8
      (Nat.xor (truncTag (cmacCtxFullTag cipher0 ctx0 ([5].take (8 / 8))) 8) (2 ^ 0))
      8).1 = MBEDTLS_ERR_CMAC_AUTH_FAILED :=
  ⟨by decide, by decide, by decide,
    (C8_bit_flip_sensitivity_amended cipher0 ctx0 [5] [9] 8 8 0 (by decide) (by decide) (by decide)).1⟩

/-- Witness for C10 at a concrete cipher and 128-bit key. -/
theorem C10_context_retains_key_copy_witness :
    ((128 : Nat) = 128 ∨ (128 : Nat) = 256) ∧ cipher0.acceptsKeybits 128 = true ∧
    (mbedtls_cmac_setkey cipher0 mbedtls_cmac_init key0 128).2.key = storedKey key0 128 :=
  ⟨Or.inl rfl, by decide,
    (C10_context_retains_key_copy cipher0 mbedtls_cmac_init key0 128 [1, 2, 3] 24 0 16 (Or.inl rfl) (by decide)).1⟩
